import Mathlib

/-
Verification of the transaction construction, classification and signing core
of the mixin common package. The Go source is shallowly embedded: byte strings
become lists of naturals, 32-byte keys / hashes / points / scalars become
naturals, and the external curve primitives are collected in a `Crypto`
structure of opaque function parameters. Functions that mutate the
`SignedTransaction` in place are modelled as functions returning an `Outcome`
that carries the post state; a Go runtime panic (slice index out of range, or
the explicit panic on a non-canonical scalar) is the `panic` outcome.
-/

set_option maxHeartbeats 1000000

namespace Mixin

/-- 32-byte hash, modelled as an opaque natural. -/
abbrev MHash := Nat

/-- 32-byte key (point or scalar encoding), modelled as an opaque natural. -/
abbrev MKey := Nat

/-- 64-byte signature, modelled as an opaque natural. -/
abbrev Sig := Nat

/-- Edwards25519 scalar, modelled as an opaque natural. -/
abbrev Scalar := Nat

/-- Edwards25519 point, modelled as an opaque natural. -/
abbrev Point := Nat

/-- Byte string. -/
abbrev Bytes := List Nat

/-- Opaque deposit payload: only presence (non-nil) matters to this core. -/
abbrev DepositData := Nat

/-- Opaque mint payload: only presence (non-nil) matters to this core. -/
abbrev MintData := Nat

/-- Opaque withdrawal payload. -/
abbrev WithdrawalData := Nat

/-- Opaque spending policy bytes. -/
abbrev MScript := List Nat

/-- Opaque fixed point amount; it is only copied by this core. -/
abbrev Integer := Nat

def TxVersionHashSignature : Nat := 0x05

def OutputTypeScript : Nat := 0x00
def OutputTypeWithdrawalSubmit : Nat := 0xa1
def OutputTypeNodePledge : Nat := 0xa3
def OutputTypeNodeAccept : Nat := 0xa4
def outputTypeNodeResign : Nat := 0xa5
def OutputTypeNodeRemove : Nat := 0xa6
def OutputTypeWithdrawalClaim : Nat := 0xa9
def OutputTypeNodeCancel : Nat := 0xaa
def OutputTypeCustodianUpdateNodes : Nat := 0xb1
def OutputTypeCustodianSlashNodes : Nat := 0xb2

def TransactionTypeScript : Nat := 0x00
def TransactionTypeMint : Nat := 0x01
def TransactionTypeDeposit : Nat := 0x02
def TransactionTypeWithdrawalSubmit : Nat := 0x03
def TransactionTypeWithdrawalClaim : Nat := 0x05
def TransactionTypeNodePledge : Nat := 0x06
def TransactionTypeNodeAccept : Nat := 0x07
def transactionTypeNodeResign : Nat := 0x08
def TransactionTypeNodeRemove : Nat := 0x09
def TransactionTypeNodeCancel : Nat := 0x12
def TransactionTypeCustodianUpdateNodes : Nat := 0x13
def TransactionTypeCustodianSlashNodes : Nat := 0x14
def TransactionTypeUnknown : Nat := 0xff

/-- Mirrors Go `Input`: a UTXO reference plus optional genesis, deposit and
mint payloads (`nil` pointers become `none`). -/
structure Input where
  Hash : MHash
  Index : Nat
  Genesis : Option Bytes
  Deposit : Option DepositData
  Mint : Option MintData
deriving DecidableEq, Repr

/-- Mirrors Go `Output`. -/
structure Output where
  Type' : Nat
  Amount : Integer
  Keys : List MKey
  Mask : MKey
  Script : MScript
  Withdrawal : Option WithdrawalData
deriving DecidableEq, Repr

/-- Mirrors Go `Transaction`. -/
structure Transaction where
  Version : Nat
  Asset : MHash
  Inputs : List Input
  Outputs : List Output
  References : List MHash
  Extra : Bytes
deriving DecidableEq, Repr

/-- Modelled from the spec: the `AggregatedSignature` record (defined outside
this file's source slice) is a signer index vector plus a 64-byte signature;
the two 32-byte halves of the signature are kept as separate fields. -/
structure AggregatedSignature where
  Signers : List Nat
  SigR : MKey
  SigS : MKey
deriving DecidableEq, Repr

/-- Mirrors Go `SignedTransaction`: the embedded transaction plus the optional
aggregated signature and the list of per-input signature maps. A signature
map is a list of (key index, signature) pairs with map insert semantics. -/
structure SignedTransaction where
  tx : Transaction
  AggregatedSignature : Option AggregatedSignature
  SignaturesMap : List (List (Nat × Sig))
deriving DecidableEq, Repr

/-- Modelled from the spec: an `Address` carries the four keys
used by the signing paths. -/
structure Address where
  PublicViewKey : MKey
  PublicSpendKey : MKey
  PrivateViewKey : MKey
  PrivateSpendKey : MKey
deriving DecidableEq, Repr

/-- Modelled from the spec: a `UTXO` as surfaced by the reader interface is
the referenced output's keys, mask and index. -/
structure UTXO where
  Keys : List MKey
  Mask : MKey
  Index : Nat
deriving DecidableEq, Repr

/-- Modelled from the spec: `UTXOKeysReader.read_utxo_keys` may fail with an
opaque reader error, or return no UTXO, or return one. -/
abbrev UTXOKeysReader := MHash → Nat → Except Unit (Option UTXO)

/-- The external cryptographic primitives consumed by the core, kept fully
opaque: the embedding is parametric in this structure. -/
structure Crypto where
  deriveGhostPrivateKey : MKey → MKey → MKey → Nat → MKey
  deriveGhostPublicKey : MKey → MKey → MKey → Nat → MKey
  viewGhostOutputKey : MKey → MKey → MKey → Nat → MKey
  pub : MKey → MKey
  sign : MKey → MHash → Sig
  payloadHash : Transaction → MHash
  blake3Hash : Bytes → Bytes
  newKeyFromSeed : Bytes → MKey
  setPointBytes : MKey → Option Point
  pointAdd : Point → Point → Point
  identityPoint : Point
  pointBytes : Point → MKey
  hramScalar : MKey → MKey → MHash → Scalar
  setCanonicalScalar : MKey → Option Scalar
  scalarMultiplyAdd : Scalar → Scalar → Scalar → Scalar
  scalarAdd : Scalar → Scalar → Scalar
  scalarZero : Scalar
  scalarBytes : Scalar → MKey

/-- The input scan of Go `TransactionType` (lines 107-117): the first input
carrying a mint, deposit or genesis payload decides, in that in-input order. -/
def inputTypeScan : List Input → Option Nat
  | [] => none
  | i :: rest =>
    if i.Mint.isSome then some TransactionTypeMint
    else if i.Deposit.isSome then some TransactionTypeDeposit
    else if i.Genesis.isSome then some TransactionTypeUnknown
    else inputTypeScan rest

/-- The output scan of Go `TransactionType` (lines 119-145): the first special
output decides; otherwise `isScript` tracks whether every output is a script
output. -/
def outputTypeScan : List Output → Bool → Nat
  | [], isScript => if isScript then TransactionTypeScript else TransactionTypeUnknown
  | o :: rest, isScript =>
    if o.Type' = OutputTypeWithdrawalSubmit then TransactionTypeWithdrawalSubmit
    else if o.Type' = OutputTypeWithdrawalClaim then TransactionTypeWithdrawalClaim
    else if o.Type' = OutputTypeNodePledge then TransactionTypeNodePledge
    else if o.Type' = OutputTypeNodeCancel then TransactionTypeNodeCancel
    else if o.Type' = OutputTypeNodeAccept then TransactionTypeNodeAccept
    else if o.Type' = OutputTypeNodeRemove then TransactionTypeNodeRemove
    else if o.Type' = OutputTypeCustodianUpdateNodes then TransactionTypeCustodianUpdateNodes
    else if o.Type' = OutputTypeCustodianSlashNodes then TransactionTypeCustodianSlashNodes
    else outputTypeScan rest (isScript && decide (o.Type' = OutputTypeScript))

/-- Go `(*SignedTransaction).TransactionType`. -/
def TransactionType (signed : SignedTransaction) : Nat :=
  match inputTypeScan signed.tx.Inputs with
  | some t => t
  | none => outputTypeScan signed.tx.Outputs true

/-- Written from the spec's words: the bijection from special output types to
transaction types used by the classifier's output phase. -/
def specialOutputMap (t : Nat) : Option Nat :=
  if t = OutputTypeWithdrawalSubmit then some TransactionTypeWithdrawalSubmit
  else if t = OutputTypeWithdrawalClaim then some TransactionTypeWithdrawalClaim
  else if t = OutputTypeNodePledge then some TransactionTypeNodePledge
  else if t = OutputTypeNodeCancel then some TransactionTypeNodeCancel
  else if t = OutputTypeNodeAccept then some TransactionTypeNodeAccept
  else if t = OutputTypeNodeRemove then some TransactionTypeNodeRemove
  else if t = OutputTypeCustodianUpdateNodes then some TransactionTypeCustodianUpdateNodes
  else if t = OutputTypeCustodianSlashNodes then some TransactionTypeCustodianSlashNodes
  else none

/-- Written from the spec's words: the first output whose type is special
decides; otherwise script iff every output is a script output. -/
def specOutputType (outs : List Output) : Nat :=
  match outs.findSome? (fun o => specialOutputMap o.Type') with
  | some t => t
  | none =>
    if outs.all (fun o => decide (o.Type' = OutputTypeScript)) then TransactionTypeScript
    else TransactionTypeUnknown

/-- An input with none of the three payload pointers set. -/
abbrev plainInput (i : Input) : Prop := i.Mint = none ∧ i.Deposit = none ∧ i.Genesis = none

/-- The inner loop of Go `ViewGhostKey` (lines 85-101): position `i` is the
output's 0-based index among all outputs; a non-script output is skipped;
a script output is copied with its keys passed through the view derivation
(the copy leaves the withdrawal pointer nil). -/
def viewGhostKeyLoop (c : Crypto) (a : MKey) : Nat → List Output → List Output
  | _, [] => []
  | i, o :: rest =>
    if o.Type' ≠ OutputTypeScript then viewGhostKeyLoop c a (i + 1) rest
    else
      { Type' := o.Type', Amount := o.Amount,
        Keys := o.Keys.map fun k => c.viewGhostOutputKey k a o.Mask i,
        Mask := o.Mask, Script := o.Script, Withdrawal := none } ::
        viewGhostKeyLoop c a (i + 1) rest

/-- Go `(*Transaction).ViewGhostKey`. -/
def ViewGhostKey (c : Crypto) (tx : Transaction) (a : MKey) : List Output :=
  viewGhostKeyLoop c a 0 tx.Outputs

/-- Written from the spec's words: the copy of a viewed output preserves type,
amount, script and mask, and maps every key through the view derivation at the
output's position. -/
def specViewOutput (c : Crypto) (a : MKey) (i : Nat) (o : Output) : Output :=
  { o with Keys := o.Keys.map fun k => c.viewGhostOutputKey k a o.Mask i,
           Withdrawal := none }

/-- The error values surfaced by the signing paths, mirroring the
`fmt.Errorf` sites of the source. -/
inductive SigError where
  | invalidKey (acc : Address)
  | invalidInputIndex (index : Int) (count : Nat)
  | invalidInputsCount (count : Nat)
  | invalidInputFormat
  | inputNotFound (h : MHash) (index : Nat)
  | invalidSignersOrder (prev cur : Nat)
  | invalidPoint
  | readerFailed
deriving DecidableEq, Repr

/-- The two ways the Go code can panic: a slice index out of range, and the
explicit panic on a non-canonical scalar in `AggregateSign`. -/
inductive PanicKind where
  | outOfRange
  | badScalar
deriving DecidableEq, Repr

/-- Result of a Go method that mutates `signed` in place: a panic, an error
return (carrying the untouched state), or a normal return carrying the
post state. -/
inductive Outcome (σ : Type) where
  | panic (k : PanicKind)
  | err (e : SigError) (s : σ)
  | ok (s : σ)
deriving DecidableEq, Repr

/-- Result of an internal loop that owns no transaction state. -/
inductive PRes (α : Type) where
  | panic (k : PanicKind)
  | err (e : SigError)
  | ok (a : α)
deriving DecidableEq, Repr

/-- Index of the last occurrence of `k` in `l`: the Go `keysFilter` map is
built in order, so a later duplicate key overwrites an earlier index. -/
def lookupLast : List MKey → MKey → Option Nat
  | [], _ => none
  | x :: rest, k =>
    match lookupLast rest k with
    | some i => some (i + 1)
    | none => if x = k then some 0 else none

/-- Insert with overwrite, the Go map assignment `sigs[i] = &sig`. -/
def mapInsert : List (Nat × Sig) → Nat → Sig → List (Nat × Sig)
  | [], k, v => [(k, v)]
  | (k', v') :: rest, k, v =>
    if k' = k then (k, v) :: rest else (k', v') :: mapInsert rest k v

/-- Go slice indexing semantics: a negative or too-large index is a runtime
panic, modelled as `none`. -/
def goIndex (l : List α) (i : Int) : Option α :=
  if i < 0 then none else l[i.toNat]?

/-- Go `(*SignedTransaction).SignRaw` (lines 214-228): requires exactly one
input and that it carries a deposit or a mint; on success appends the
one-entry map from key index 0 to the signature of the payload hash under
the supplied key. -/
def SignRaw (c : Crypto) (signed : SignedTransaction) (key : MKey) : Outcome SignedTransaction :=
  match signed.tx.Inputs with
  | [input] =>
    if input.Deposit = none ∧ input.Mint = none then .err .invalidInputFormat signed
    else
      .ok { signed with
              SignaturesMap :=
                signed.SignaturesMap ++ [[(0, c.sign key (c.payloadHash signed.tx))]] }
  | l => .err (.invalidInputsCount l.length) signed

/-- The shared account loop of `SignUTXO` (lines 161-169) and `SignInput`
(lines 201-209): derive the ghost private key at the given nonce, locate its
public key among the UTXO keys (failing with the invalid-key error), and
record the signature under the found position truncated to 16 bits. -/
def ghostSignLoop (c : Crypto) (utxo : UTXO) (nonce : Nat) (msg : MHash) :
    List Address → List (Nat × Sig) → Except SigError (List (Nat × Sig))
  | [], sigs => .ok sigs
  | acc :: rest, sigs =>
    let priv := c.deriveGhostPrivateKey utxo.Mask acc.PrivateViewKey acc.PrivateSpendKey nonce
    match lookupLast utxo.Keys (c.pub priv) with
    | none => .error (.invalidKey acc)
    | some i => ghostSignLoop c utxo nonce msg rest (mapInsert sigs (i % 65536) (c.sign priv msg))

/-- Go `(*SignedTransaction).SignUTXO` (lines 148-172): empty accounts is a
successful no-op; otherwise sign with every account using the UTXO's own
index as nonce and append the resulting map. -/
def SignUTXO (c : Crypto) (signed : SignedTransaction) (utxo : UTXO) (accounts : List Address) :
    Outcome SignedTransaction :=
  if accounts = [] then .ok signed
  else
    match ghostSignLoop c utxo utxo.Index (c.payloadHash signed.tx) accounts [] with
    | .error e => .err e signed
    | .ok sigs => .ok { signed with SignaturesMap := signed.SignaturesMap ++ [sigs] }

/-- Go `(*SignedTransaction).SignInput` (lines 174-212): empty accounts is a
successful no-op; an index at or above the input count is the invalid-index
error; a negative index is a slice-range panic; a deposit or mint input
delegates to `SignRaw` with the first account's private spend key; otherwise
the UTXO is read and the account loop runs with the input's index as nonce. -/
def SignInput (c : Crypto) (reader : UTXOKeysReader) (signed : SignedTransaction)
    (index : Int) (accounts : List Address) : Outcome SignedTransaction :=
  match accounts with
  | [] => .ok signed
  | acc0 :: _ =>
    if (signed.tx.Inputs.length : Int) ≤ index then
      .err (.invalidInputIndex index signed.tx.Inputs.length) signed
    else
      match goIndex signed.tx.Inputs index with
      | none => .panic .outOfRange
      | some input =>
        if input.Deposit.isSome || input.Mint.isSome then
          SignRaw c signed acc0.PrivateSpendKey
        else
          match reader input.Hash input.Index with
          | .error _ => .err .readerFailed signed
          | .ok none => .err (.inputNotFound input.Hash input.Index) signed
          | .ok (some utxo) =>
            match ghostSignLoop c utxo input.Index (c.payloadHash signed.tx) accounts [] with
            | .error e => .err e signed
            | .ok sigs => .ok { signed with SignaturesMap := signed.SignaturesMap ++ [sigs] }

/-- The accumulating state of the input scan of `AggregateSign`
(lines 231-233): signer indices, private keys and the concatenated
public key lists of the inputs seen so far. -/
structure ScanSt where
  signers : List Nat
  privKeys : List MKey
  pubKeys : List MKey
deriving DecidableEq, Repr

/-- One account of the scan of `AggregateSign` (lines 248-260): derive the
ghost private key, locate it among the UTXO keys, form the global index
`m = len(pubKeys) + i`, reject a non-increasing `m`, and append. -/
def accStep (c : Crypto) (utxo : UTXO) (nonce : Nat) (st : ScanSt) (acc : Address) :
    Except SigError ScanSt :=
  let priv := c.deriveGhostPrivateKey utxo.Mask acc.PrivateViewKey acc.PrivateSpendKey nonce
  match lookupLast utxo.Keys (c.pub priv) with
  | none => .error (.invalidKey acc)
  | some i =>
    let m := st.pubKeys.length + i
    match st.signers.getLast? with
    | some last =>
      if m ≤ last then .error (.invalidSignersOrder last m)
      else .ok { st with signers := st.signers ++ [m], privKeys := st.privKeys ++ [priv] }
    | none =>
      .ok { st with signers := st.signers ++ [m], privKeys := st.privKeys ++ [priv] }

/-- The account loop of one input of `AggregateSign`. -/
def accLoop (c : Crypto) (utxo : UTXO) (nonce : Nat) : List Address → ScanSt →
    Except SigError ScanSt
  | [], st => .ok st
  | acc :: rest, st =>
    match accStep c utxo nonce st acc with
    | .error e => .error e
    | .ok st' => accLoop c utxo nonce rest st'

/-- The input scan of `AggregateSign` (lines 234-262): read each input's UTXO,
index the accounts-per-input vector by the input position without a length
check (a missing entry is a slice-range panic), run the account loop, then
append the UTXO's keys to the global public key list. -/
def aggScan (c : Crypto) (reader : UTXOKeysReader) (accountss : List (List Address)) :
    Nat → List Input → ScanSt → PRes ScanSt
  | _, [], st => .ok st
  | idx, input :: rest, st =>
    match reader input.Hash input.Index with
    | .error _ => .err .readerFailed
    | .ok none => .err (.inputNotFound input.Hash input.Index)
    | .ok (some utxo) =>
      match accountss[idx]? with
      | none => .panic .outOfRange
      | some accs =>
        match accLoop c utxo input.Index accs st with
        | .error e => .err e
        | .ok st' =>
          aggScan c reader accountss (idx + 1) rest
            { st' with pubKeys := st'.pubKeys ++ utxo.Keys }

/-- The per-signer nonce of `AggregateSign` (lines 267-269): blake3 of the
seed concatenated with the big-endian 16-bit encoding of `m`, and the hash
repeated as the 64-byte key seed. -/
def nonceKey (c : Crypto) (seed : Bytes) (m : Nat) : MKey :=
  let buf := seed ++ [m % 65536 / 256, m % 256]
  let s := c.blake3Hash buf
  c.newKeyFromSeed (s ++ s)

/-- The signer loop of `AggregateSign` (lines 264-285): accumulate the nonce
public points into `P` and the signer public keys (indexed by `m` into the
global key list, a slice access that panics when out of range) into `A`,
collecting the nonce scalars. -/
def aggPhase2 (c : Crypto) (seed : Bytes) (pubKeys : List MKey) :
    List Nat → List MKey → Point → Point → PRes (List MKey × Point × Point)
  | [], randoms, pp, aa => .ok (randoms, pp, aa)
  | m :: rest, randoms, pp, aa =>
    let r := nonceKey c seed m
    let rPub := c.pub r
    match c.setPointBytes rPub with
    | none => .err .invalidPoint
    | some p =>
      match pubKeys[m]? with
      | none => .panic .outOfRange
      | some pk =>
        match c.setPointBytes pk with
        | none => .err .invalidPoint
        | some a =>
          aggPhase2 c seed pubKeys rest (randoms ++ [r]) (c.pointAdd pp p) (c.pointAdd aa a)

/-- The response loop of `AggregateSign` (lines 299-311): each private key and
its nonce must decode as canonical scalars (a failure is the source's explicit
panic); `S` accumulates `x*y + z`. -/
def aggPhase4 (c : Crypto) (x : Scalar) (randoms : List MKey) :
    List MKey → Nat → Scalar → PRes Scalar
  | [], _, s => .ok s
  | k :: rest, i, s =>
    match c.setCanonicalScalar k with
    | none => .panic .badScalar
    | some y =>
      match randoms[i]? with
      | none => .panic .outOfRange
      | some rk =>
        match c.setCanonicalScalar rk with
        | none => .panic .badScalar
        | some z => aggPhase4 c x randoms rest (i + 1) (c.scalarAdd s (c.scalarMultiplyAdd x y z))

/-- Go `(*SignedTransaction).AggregateSign` (lines 230-318). -/
def AggregateSign (c : Crypto) (reader : UTXOKeysReader) (accountss : List (List Address))
    (seed : Bytes) (signed : SignedTransaction) : Outcome SignedTransaction :=
  match aggScan c reader accountss 0 signed.tx.Inputs ⟨[], [], []⟩ with
  | .panic k => .panic k
  | .err e => .err e signed
  | .ok st =>
    match aggPhase2 c seed st.pubKeys st.signers [] c.identityPoint c.identityPoint with
    | .panic k => .panic k
    | .err e => .err e signed
    | .ok (randoms, pp, aa) =>
      let msg := c.payloadHash signed.tx
      let x := c.hramScalar (c.pointBytes pp) (c.pointBytes aa) msg
      match aggPhase4 c x randoms st.privKeys 0 c.scalarZero with
      | .panic k => .panic k
      | .err e => .err e signed
      | .ok s =>
        .ok { signed with
                AggregatedSignature :=
                  some { Signers := st.signers, SigR := c.pointBytes pp,
                         SigS := c.scalarBytes s } }

/-- Go `NewTransactionV5`. -/
def NewTransactionV5 (asset : MHash) : Transaction :=
  { Version := TxVersionHashSignature, Asset := asset,
    Inputs := [], Outputs := [], References := [], Extra := [] }

/-- Go `(*Transaction).AddInput`: appends a plain UTXO reference. -/
def AddInput (tx : Transaction) (h : MHash) (index : Nat) : Transaction :=
  { tx with Inputs := tx.Inputs ++
      [{ Hash := h, Index := index, Genesis := none, Deposit := none, Mint := none }] }

/-- Go `(*Transaction).AddOutputWithType` (lines 335-353): derive the mask and
ghost keys from the seed when the recipient list is non-empty, using the
output's position as nonce, then append. -/
def AddOutputWithType (c : Crypto) (tx : Transaction) (ot : Nat) (accounts : List Address)
    (s : MScript) (amount : Integer) (seed : Bytes) : Transaction :=
  let out : Output :=
    { Type' := ot, Amount := amount, Script := s, Keys := [], Mask := 0, Withdrawal := none }
  let out :=
    if accounts.isEmpty then out
    else
      let r := c.newKeyFromSeed seed
      { out with Mask := c.pub r,
                 Keys := accounts.map fun a =>
                   c.deriveGhostPublicKey r a.PublicViewKey a.PublicSpendKey tx.Outputs.length }
  { tx with Outputs := tx.Outputs ++ [out] }

/-- A transaction construction step: `AddInput` or `AddOutputWithType`. -/
inductive BuildOp where
  | input (h : MHash) (index : Nat)
  | output (ot : Nat) (accounts : List Address) (s : MScript) (amount : Integer) (seed : Bytes)

/-- Apply one construction step. -/
def buildStep (c : Crypto) (tx : Transaction) : BuildOp → Transaction
  | .input h index => AddInput tx h index
  | .output ot accounts s amount seed => AddOutputWithType c tx ot accounts s amount seed

/-- Build a transaction with `NewTransactionV5` and a sequence of mutators,
then promote it to a `SignedTransaction` (both signature fields zero). -/
def buildTx (c : Crypto) (asset : MHash) (ops : List BuildOp) : SignedTransaction :=
  { tx := ops.foldl (buildStep c) (NewTransactionV5 asset),
    AggregatedSignature := none, SignaturesMap := [] }

/-- One invocation of a provided signing operation. -/
inductive SignOp where
  | utxo (u : UTXO) (accounts : List Address)
  | input (reader : UTXOKeysReader) (index : Int) (accounts : List Address)
  | raw (key : MKey)
  | aggregate (reader : UTXOKeysReader) (accountss : List (List Address)) (seed : Bytes)

/-- Whether a signing operation is the aggregate path. -/
def isAggregateOp : SignOp → Bool
  | .aggregate _ _ _ => true
  | _ => false

/-- Apply one signing operation to a signed transaction. -/
def applyOp (c : Crypto) (s : SignedTransaction) : SignOp → Outcome SignedTransaction
  | .utxo u accounts => SignUTXO c s u accounts
  | .input reader index accounts => SignInput c reader s index accounts
  | .raw key => SignRaw c s key
  | .aggregate reader accountss seed => AggregateSign c reader accountss seed s

/-- Run a sequence of signing operations, threading the transaction through:
an error return leaves the transaction as the operation left it (untouched),
a panic aborts the run. -/
def runOps (c : Crypto) : List SignOp → SignedTransaction → Option SignedTransaction
  | [], s => some s
  | op :: rest, s =>
    match applyOp c s op with
    | .panic _ => none
    | .err _ s' => runOps c rest s'
    | .ok s' => runOps c rest s'

/-- A concrete instantiation of the crypto primitives, used to evaluate the
embedding at concrete inputs. -/
def cTest : Crypto :=
  { deriveGhostPrivateKey := fun mask v s i => mask + v + s + i,
    deriveGhostPublicKey := fun r v s i => r + v + s + i,
    viewGhostOutputKey := fun k a mask i => k + a + mask + i,
    pub := fun k => k,
    sign := fun k m => k * 1000 + m,
    payloadHash := fun _ => 7,
    blake3Hash := fun b => [b.foldl (· + ·) 0],
    newKeyFromSeed := fun b => b.foldl (· + ·) 0,
    setPointBytes := fun k => some k,
    pointAdd := (· + ·),
    identityPoint := 0,
    pointBytes := fun p => p,
    hramScalar := fun p a m => p + a + m,
    setCanonicalScalar := fun k => some k,
    scalarMultiplyAdd := fun x y z => x * y + z,
    scalarAdd := (· + ·),
    scalarZero := 0,
    scalarBytes := fun s => s }

/-- A concrete account whose ghost private key under `cTest` and `utxoT`
is 6, with public key 6. -/
def accT : Address :=
  { PublicViewKey := 0, PublicSpendKey := 0, PrivateViewKey := 2, PrivateSpendKey := 1 }

/-- A concrete UTXO holding the one public key 6. -/
def utxoT : UTXO := { Keys := [6], Mask := 3, Index := 0 }

/-- A reader that always returns `utxoT`. -/
def readerT : UTXOKeysReader := fun _ _ => .ok (some utxoT)

/-- An account whose derived ghost key under `cTest` and `utxoT` is not
among the UTXO keys. -/
def accBad : Address :=
  { PublicViewKey := 0, PublicSpendKey := 0, PrivateViewKey := 0, PrivateSpendKey := 0 }

/-- A signed transaction with a single plain input, built by the
constructors. -/
def plainOneInputTx : SignedTransaction := buildTx cTest 0 [.input 5 0]

/-- A signed transaction whose single input carries a deposit. -/
def depositOneInputTx : SignedTransaction :=
  { tx := { Version := 5, Asset := 0,
            Inputs := [ { Hash := 0, Index := 0, Genesis := none, Deposit := some 0, Mint := none } ],
            Outputs := [], References := [], Extra := [] },
    AggregatedSignature := none, SignaturesMap := [] }

/-- A signed transaction with two deposit inputs. -/
def twoDepositTx : SignedTransaction :=
  { tx := { Version := 5, Asset := 0,
            Inputs := [ { Hash := 0, Index := 0, Genesis := none, Deposit := some 0, Mint := none },
                        { Hash := 0, Index := 1, Genesis := none, Deposit := some 0, Mint := none } ],
            Outputs := [], References := [], Extra := [] },
    AggregatedSignature := none, SignaturesMap := [] }

/-- A signed transaction whose first input carries a deposit and whose second
input carries a mint. -/
def depositThenMintTx : SignedTransaction :=
  { tx := { Version := 5, Asset := 0,
            Inputs := [ { Hash := 0, Index := 0, Genesis := none, Deposit := some 0, Mint := none },
                        { Hash := 0, Index := 0, Genesis := none, Deposit := none, Mint := some 0 } ],
            Outputs := [], References := [], Extra := [] },
    AggregatedSignature := none, SignaturesMap := [] }

/-- An input carrying only a mint payload. -/
def mintInput0 : Input := { Hash := 0, Index := 0, Genesis := none, Deposit := none, Mint := some 0 }

/-- A signed transaction whose only input is a mint input. -/
def mintOnlyTx : SignedTransaction :=
  { tx := { Version := 5, Asset := 0, Inputs := [mintInput0],
            Outputs := [], References := [], Extra := [] },
    AggregatedSignature := none, SignaturesMap := [] }

/-- A signed transaction with one plain input and outputs
script, withdrawal-submit, script. -/
def withdrawalSubmitTx : SignedTransaction :=
  { tx := { Version := 5, Asset := 0,
            Inputs := [ { Hash := 1, Index := 0, Genesis := none, Deposit := none, Mint := none } ],
            Outputs := [ { Type' := 0x00, Amount := 1, Keys := [], Mask := 0, Script := [],
                           Withdrawal := none },
                         { Type' := 0xa1, Amount := 2, Keys := [], Mask := 0, Script := [],
                           Withdrawal := none },
                         { Type' := 0x00, Amount := 3, Keys := [], Mask := 0, Script := [],
                           Withdrawal := none } ],
            References := [], Extra := [] },
    AggregatedSignature := none, SignaturesMap := [] }


/-- The invariant maintained by the account loop within one input: signers
strictly ascending and bounded by the global key count including the current
input's keys, one private key per signer. -/
def scanInvDuring (keys : List MKey) (st : ScanSt) : Prop :=
  List.Chain' (· < ·) st.signers ∧
  (∀ m ∈ st.signers, m < st.pubKeys.length + keys.length) ∧
  st.privKeys.length = st.signers.length

/-- The invariant holding between inputs of the scan: signers strictly
ascending and below the global key count, one private key per signer. -/
def scanInvAfter (st : ScanSt) : Prop :=
  List.Chain' (· < ·) st.signers ∧
  (∀ m ∈ st.signers, m < st.pubKeys.length) ∧
  st.privKeys.length = st.signers.length

/-- The transaction body built by `buildTx cTest 0` with the single plain
input (5, 0). -/
def plainTxCore : Transaction :=
  { Version := 5, Asset := 0,
    Inputs := [{ Hash := 5, Index := 0, Genesis := none, Deposit := none, Mint := none }],
    Outputs := [], References := [], Extra := [] }

/-- The result of a successful `AggregateSign` of `plainOneInputTx` under
`cTest`, `readerT`, accounts `[[accT]]` and seed `[1]`. -/
def aggOkTx : SignedTransaction :=
  { tx := plainTxCore, AggregatedSignature := some { Signers := [0], SigR := 2, SigS := 92 },
    SignaturesMap := [] }

/-- The result of a successful `SignUTXO` of `plainOneInputTx` under `cTest`,
`utxoT` and accounts `[accT]`. -/
def mapSignedTx : SignedTransaction :=
  { tx := plainTxCore, AggregatedSignature := none, SignaturesMap := [[(0, 6007)]] }

/-- The state after a successful `SignUTXO` followed by a successful
`AggregateSign`: both signature fields populated. -/
def bothPopulatedTx : SignedTransaction :=
  { tx := plainTxCore, AggregatedSignature := some { Signers := [0], SigR := 2, SigS := 92 },
    SignaturesMap := [[(0, 6007)]] }

theorem outputTypeScan_eq_spec (l : List Output) (b : Bool) :
    outputTypeScan l b =
      match l.findSome? (fun o => specialOutputMap o.Type') with
      | some t => t
      | none =>
        if b && l.all (fun o => decide (o.Type' = OutputTypeScript)) then TransactionTypeScript
        else TransactionTypeUnknown := by
  induction l generalizing b with
  | nil => cases b <;> simp [outputTypeScan]
  | cons o rest ih =>
    by_cases h1 : o.Type' = OutputTypeWithdrawalSubmit
    · simp only [outputTypeScan, List.findSome?_cons, specialOutputMap, h1]; rfl
    by_cases h2 : o.Type' = OutputTypeWithdrawalClaim
    · simp only [outputTypeScan, List.findSome?_cons, specialOutputMap, h2]; rfl
    by_cases h3 : o.Type' = OutputTypeNodePledge
    · simp only [outputTypeScan, List.findSome?_cons, specialOutputMap, h3]; rfl
    by_cases h4 : o.Type' = OutputTypeNodeCancel
    · simp only [outputTypeScan, List.findSome?_cons, specialOutputMap, h4]; rfl
    by_cases h5 : o.Type' = OutputTypeNodeAccept
    · simp only [outputTypeScan, List.findSome?_cons, specialOutputMap, h5]; rfl
    by_cases h6 : o.Type' = OutputTypeNodeRemove
    · simp only [outputTypeScan, List.findSome?_cons, specialOutputMap, h6]; rfl
    by_cases h7 : o.Type' = OutputTypeCustodianUpdateNodes
    · simp only [outputTypeScan, List.findSome?_cons, specialOutputMap, h7]; rfl
    by_cases h8 : o.Type' = OutputTypeCustodianSlashNodes
    · simp only [outputTypeScan, List.findSome?_cons, specialOutputMap, h8]; rfl
    simp only [outputTypeScan, h1, h2, h3, h4, h5, h6, h7, h8, if_false, ih,
      List.findSome?_cons, List.all_cons]
    have hmap : specialOutputMap o.Type' = none := by
      simp [specialOutputMap, h1, h2, h3, h4, h5, h6, h7, h8]
    rw [hmap]
    simp [Bool.and_assoc]

theorem outputTypeScan_ne_resign (l : List Output) (b : Bool) :
    outputTypeScan l b ≠ transactionTypeNodeResign := by
  induction l generalizing b with
  | nil =>
    cases b <;> simp [outputTypeScan, TransactionTypeScript, TransactionTypeUnknown,
      transactionTypeNodeResign]
  | cons o rest ih =>
    simp only [outputTypeScan]
    split_ifs <;> first | decide | exact ih _

theorem inputTypeScan_ne_resign (l : List Input) (t : Nat) :
    inputTypeScan l = some t → t ≠ transactionTypeNodeResign := by
  induction l with
  | nil => simp [inputTypeScan]
  | cons i rest ih =>
    simp only [inputTypeScan]
    split_ifs <;> first | (intro h; cases h; decide) | exact ih

theorem inputTypeScan_plain_prefix (pre l : List Input)
    (h : ∀ j ∈ pre, plainInput j) :
    inputTypeScan (pre ++ l) = inputTypeScan l := by
  induction pre with
  | nil => rfl
  | cons j rest ih =>
    have hj := h j (by simp)
    obtain ⟨h1, h2, h3⟩ := hj
    simp only [List.cons_append, inputTypeScan, h1, h2, h3, Option.isSome_none,
      Bool.false_eq_true, if_false]
    exact ih fun x hx => h x (by simp [hx])

theorem inputTypeScan_all_plain (l : List Input) (h : ∀ j ∈ l, plainInput j) :
    inputTypeScan l = none := by
  have := inputTypeScan_plain_prefix l [] h
  simpa using this

theorem viewGhostKeyLoop_eq_filter (c : Crypto) (a : MKey) (l : List Output) :
    ∀ n : Nat,
      viewGhostKeyLoop c a n l =
        ((l.enumFrom n).filter fun p => decide (p.2.Type' = OutputTypeScript)).map
          fun p => specViewOutput c a p.1 p.2 := by
  induction l with
  | nil => intro n; rfl
  | cons o rest ih =>
    intro n
    by_cases h : o.Type' = OutputTypeScript
    · simp [viewGhostKeyLoop, List.enumFrom, h, ih (n + 1), specViewOutput]
    · simp [viewGhostKeyLoop, List.enumFrom, h, ih (n + 1)]

/-- C1 counterexample: this transaction's inputs contain a mint input, yet the
classifier returns the deposit type, because the deposit input comes first in
the scan; the claim requires the mint type regardless of input positions. -/
theorem transactionType_mint_position_cex :
    (depositThenMintTx.tx.Inputs.any fun i => i.Mint.isSome) = true ∧
    TransactionType depositThenMintTx = TransactionTypeDeposit ∧
    TransactionTypeDeposit ≠ TransactionTypeMint := by decide

/-- C1 (amended): the classifier scans inputs in order and the first input
carrying a mint, deposit or genesis payload decides. If every input before
input `i` is plain, then: `i` carrying a mint yields the mint type regardless
of later inputs and of the outputs, and `i` carrying a deposit and no mint
yields the deposit type. -/
theorem transactionType_input_priority :
    ∀ (s : SignedTransaction) (pre post : List Input) (i : Input),
      s.tx.Inputs = pre ++ i :: post →
      (∀ j ∈ pre, plainInput j) →
      (i.Mint.isSome = true → TransactionType s = TransactionTypeMint) ∧
      (i.Mint = none → i.Deposit.isSome = true → TransactionType s = TransactionTypeDeposit) := by
  intro s pre post i hs hpre
  unfold TransactionType
  rw [hs, inputTypeScan_plain_prefix pre _ hpre]
  constructor
  · intro hm
    simp [inputTypeScan, hm]
  · intro hm hd
    simp [inputTypeScan, hm, hd]

/-- Witness for C1 (amended) at a one-mint-input transaction. -/
theorem transactionType_input_priority_w :
    TransactionType mintOnlyTx = TransactionTypeMint :=
  (transactionType_input_priority mintOnlyTx [] [] mintInput0 rfl (by decide)).1 (by decide)

/-- C4: for a signed transaction all of whose inputs are plain, the classifier
implements the spec's output rule (first special output decides via the
bijection, otherwise script iff all outputs are script outputs); and the
classifier never returns the reserved node-resign transaction type. -/
theorem transactionType_output_rule :
    (∀ s : SignedTransaction,
       (∀ i ∈ s.tx.Inputs, plainInput i) →
       TransactionType s = specOutputType s.tx.Outputs) ∧
    (∀ s : SignedTransaction, TransactionType s ≠ transactionTypeNodeResign) := by
  constructor
  · intro s h
    unfold TransactionType specOutputType
    rw [inputTypeScan_all_plain _ h, outputTypeScan_eq_spec]
    cases hf : s.tx.Outputs.findSome? fun o => specialOutputMap o.Type' <;> simp [hf]
  · intro s
    unfold TransactionType
    cases hscan : inputTypeScan s.tx.Inputs with
    | some t => exact inputTypeScan_ne_resign _ _ hscan
    | none => exact outputTypeScan_ne_resign _ _

/-- Witness for C4 at a concrete transaction with a withdrawal-submit output. -/
theorem transactionType_output_rule_w :
    TransactionType withdrawalSubmitTx = specOutputType withdrawalSubmitTx.tx.Outputs ∧
    TransactionType withdrawalSubmitTx ≠ transactionTypeNodeResign :=
  ⟨transactionType_output_rule.1 withdrawalSubmitTx (by decide),
   transactionType_output_rule.2 withdrawalSubmitTx⟩

/-- C8: the viewer is a pure filter: it returns exactly the script-typed
outputs of the transaction, in original order and at their original 0-based
positions among all outputs, each copied with type, amount, script and mask
preserved and every key passed through the view derivation at that position.
The original transaction is untouched (the embedding is a pure function of
it). -/
theorem viewGhostKey_script_filter :
    ∀ (c : Crypto) (tx : Transaction) (a : MKey),
      ViewGhostKey c tx a =
        ((tx.Outputs.enum.filter fun p => decide (p.2.Type' = OutputTypeScript)).map
          fun p => specViewOutput c a p.1 p.2) := by
  intro c tx a
  exact viewGhostKeyLoop_eq_filter c a tx.Outputs 0

theorem signRaw_err (c : Crypto) (signed : SignedTransaction) (key : MKey) (e : SigError)
    (s' : SignedTransaction) (h : SignRaw c signed key = .err e s') : s' = signed := by
  unfold SignRaw at h
  split at h
  · rename_i x input heq
    by_cases hd : input.Deposit = none ∧ input.Mint = none
    · rw [if_pos hd] at h
      injection h with h1 h2
      exact h2.symm
    · rw [if_neg hd] at h
      simp at h
  · injection h with h1 h2
    exact h2.symm

theorem signRaw_ok (c : Crypto) (signed : SignedTransaction) (key : MKey)
    (s' : SignedTransaction) (h : SignRaw c signed key = .ok s') :
    s'.tx = signed.tx ∧ s'.AggregatedSignature = signed.AggregatedSignature ∧
      ∃ m, s'.SignaturesMap = signed.SignaturesMap ++ [m] := by
  unfold SignRaw at h
  split at h
  · rename_i x input heq
    by_cases hd : input.Deposit = none ∧ input.Mint = none
    · rw [if_pos hd] at h
      simp at h
    · rw [if_neg hd] at h
      injection h with h
      cases h
      exact ⟨rfl, rfl, _, rfl⟩
  · simp at h

theorem signUTXO_err (c : Crypto) (signed : SignedTransaction) (utxo : UTXO)
    (accounts : List Address) (e : SigError) (s' : SignedTransaction)
    (h : SignUTXO c signed utxo accounts = .err e s') : s' = signed := by
  unfold SignUTXO at h
  by_cases ha : accounts = []
  · rw [if_pos ha] at h
    simp at h
  · rw [if_neg ha] at h
    split at h
    · injection h with h1 h2
      exact h2.symm
    · simp at h

theorem signUTXO_ok (c : Crypto) (signed : SignedTransaction) (utxo : UTXO)
    (accounts : List Address) (s' : SignedTransaction)
    (h : SignUTXO c signed utxo accounts = .ok s') :
    (accounts = [] ∧ s' = signed) ∨
      (s'.tx = signed.tx ∧ s'.AggregatedSignature = signed.AggregatedSignature ∧
        ∃ m, s'.SignaturesMap = signed.SignaturesMap ++ [m]) := by
  unfold SignUTXO at h
  by_cases ha : accounts = []
  · rw [if_pos ha] at h
    injection h with h
    exact Or.inl ⟨ha, h.symm⟩
  · rw [if_neg ha] at h
    split at h
    · simp at h
    · injection h with h
      cases h
      exact Or.inr ⟨rfl, rfl, _, rfl⟩

theorem signInput_err (c : Crypto) (reader : UTXOKeysReader) (signed : SignedTransaction)
    (index : Int) (accounts : List Address) (e : SigError) (s' : SignedTransaction)
    (h : SignInput c reader signed index accounts = .err e s') : s' = signed := by
  unfold SignInput at h
  split at h
  · simp at h
  · rename_i acc0 rest
    by_cases hb : (signed.tx.Inputs.length : Int) ≤ index
    · rw [if_pos hb] at h
      injection h with h1 h2
      exact h2.symm
    · rw [if_neg hb] at h
      split at h
      · simp at h
      · rename_i input hgi
        by_cases hdm : (input.Deposit.isSome || input.Mint.isSome) = true
        · rw [if_pos hdm] at h
          exact signRaw_err _ _ _ _ _ h
        · rw [if_neg hdm] at h
          split at h
          · injection h with h1 h2
            exact h2.symm
          · injection h with h1 h2
            exact h2.symm
          · split at h
            · injection h with h1 h2
              exact h2.symm
            · simp at h

theorem signInput_ok (c : Crypto) (reader : UTXOKeysReader) (signed : SignedTransaction)
    (index : Int) (accounts : List Address) (s' : SignedTransaction)
    (h : SignInput c reader signed index accounts = .ok s') :
    (accounts = [] ∧ s' = signed) ∨
      (s'.tx = signed.tx ∧ s'.AggregatedSignature = signed.AggregatedSignature ∧
        ∃ m, s'.SignaturesMap = signed.SignaturesMap ++ [m]) := by
  unfold SignInput at h
  split at h
  · injection h with h
    exact Or.inl ⟨rfl, h.symm⟩
  · rename_i acc0 rest
    by_cases hb : (signed.tx.Inputs.length : Int) ≤ index
    · rw [if_pos hb] at h
      simp at h
    · rw [if_neg hb] at h
      split at h
      · simp at h
      · rename_i input hgi
        by_cases hdm : (input.Deposit.isSome || input.Mint.isSome) = true
        · rw [if_pos hdm] at h
          exact Or.inr (signRaw_ok _ _ _ _ h)
        · rw [if_neg hdm] at h
          split at h
          · simp at h
          · simp at h
          · split at h
            · simp at h
            · injection h with h
              cases h
              exact Or.inr ⟨rfl, rfl, _, rfl⟩

/-- C5: `SignRaw` fails with the invalid-inputs-count error whenever the input
count differs from 1, fails with the invalid-input-format error when the
single input carries neither a deposit nor a mint, and otherwise succeeds,
appending exactly the one-entry map from key index 0 to the signature of the
payload hash under the supplied key. -/
theorem signRaw_rule :
    (∀ (c : Crypto) (signed : SignedTransaction) (key : MKey),
       signed.tx.Inputs.length ≠ 1 →
       SignRaw c signed key = .err (.invalidInputsCount signed.tx.Inputs.length) signed) ∧
    (∀ (c : Crypto) (signed : SignedTransaction) (key : MKey) (input : Input),
       signed.tx.Inputs = [input] → input.Deposit = none → input.Mint = none →
       SignRaw c signed key = .err .invalidInputFormat signed) ∧
    (∀ (c : Crypto) (signed : SignedTransaction) (key : MKey) (input : Input),
       signed.tx.Inputs = [input] → (input.Deposit.isSome ∨ input.Mint.isSome) →
       SignRaw c signed key =
         .ok { signed with
                 SignaturesMap :=
                   signed.SignaturesMap ++ [[(0, c.sign key (c.payloadHash signed.tx))]] }) := by
  refine ⟨?_, ?_, ?_⟩
  · intro c signed key hlen
    unfold SignRaw
    split
    · rename_i input heq
      simp [heq] at hlen
    · rfl
  · intro c signed key input hl hd hm
    unfold SignRaw
    split
    · rename_i input' heq
      have hii : input' = input := by
        rw [hl] at heq
        simpa using heq.symm
      subst hii
      rw [if_pos ⟨hd, hm⟩]
    · rename_i x hne
      exact absurd hl (hne input)
  · intro c signed key input hl hdm
    unfold SignRaw
    split
    · rename_i input' heq
      have hii : input' = input := by
        rw [hl] at heq
        simpa using heq.symm
      subst hii
      rw [if_neg]
      rintro ⟨h1, h2⟩
      rcases hdm with hh | hh <;> simp_all
    · rename_i x hne
      exact absurd hl (hne input)

/-- Witness for C5 at a transaction with two deposit inputs. -/
theorem signRaw_rule_w :
    SignRaw cTest twoDepositTx 4 = .err (.invalidInputsCount 2) twoDepositTx :=
  signRaw_rule.1 cTest twoDepositTx 4 (by decide)

/-- C6 counterexample: with a non-empty accounts list and the out-of-range
index -1 on a one-input transaction, `SignInput` panics with a slice range
failure instead of returning the invalid-input-index error. -/
theorem signInput_negative_index_cex :
    SignInput cTest readerT plainOneInputTx (-1) [accT] = .panic .outOfRange ∧
    SignInput cTest readerT plainOneInputTx (-1) [accT] ≠
      .err (.invalidInputIndex (-1) 1) plainOneInputTx := by decide

/-- C6 (amended): for a non-empty accounts list, `SignInput` returns the
invalid-input-index error, leaving the transaction unchanged, for every index
at or above the input count; a negative index instead causes an out-of-range
slice access (a runtime panic), not the error return. -/
theorem signInput_index_check :
    ∀ (c : Crypto) (reader : UTXOKeysReader) (signed : SignedTransaction) (index : Int)
      (accounts : List Address),
      accounts ≠ [] →
      ((signed.tx.Inputs.length : Int) ≤ index →
        SignInput c reader signed index accounts =
          .err (.invalidInputIndex index signed.tx.Inputs.length) signed) ∧
      (index < 0 →
        SignInput c reader signed index accounts = .panic .outOfRange) := by
  intro c reader signed index accounts hne
  match accounts with
  | [] => exact absurd rfl hne
  | acc0 :: rest =>
    constructor
    · intro hle
      simp only [SignInput]
      rw [if_pos hle]
    · intro hneg
      have hgt : ¬ (signed.tx.Inputs.length : Int) ≤ index := by omega
      simp only [SignInput]
      rw [if_neg hgt]
      unfold goIndex
      rw [if_pos hneg]

/-- Witness for C6 (amended) at index 5 on a one-input transaction. -/
theorem signInput_index_check_w :
    SignInput cTest readerT plainOneInputTx 5 [accT] =
      .err (.invalidInputIndex 5 1) plainOneInputTx :=
  (signInput_index_check cTest readerT plainOneInputTx 5 [accT] (by decide)).1 (by decide)

/-- C7 counterexample: `SignUTXO` with an empty accounts list returns success
without appending any map to `SignaturesMap` (which stays of length 0), while
the claim requires every success to append exactly one map. -/
theorem signUTXO_empty_accounts_cex :
    SignUTXO cTest plainOneInputTx utxoT [] = .ok plainOneInputTx ∧
    plainOneInputTx.SignaturesMap.length = 0 := by decide

/-- C7 (amended): each of `SignUTXO`, `SignInput` and `SignRaw` appends
exactly one map to `SignaturesMap` on success, except that `SignUTXO` and
`SignInput` with an empty accounts list succeed as a no-op appending nothing;
on an error return the transaction, hence both `SignaturesMap` and
`AggregatedSignature`, is unchanged; a success never touches
`AggregatedSignature` or the embedded transaction. -/
theorem signaturesMap_append_discipline :
    (∀ (c : Crypto) (signed : SignedTransaction) (utxo : UTXO) (accounts : List Address)
       (s' : SignedTransaction),
       SignUTXO c signed utxo accounts = .ok s' →
         (accounts = [] ∧ s' = signed) ∨
           (s'.tx = signed.tx ∧ s'.AggregatedSignature = signed.AggregatedSignature ∧
             ∃ m, s'.SignaturesMap = signed.SignaturesMap ++ [m])) ∧
    (∀ (c : Crypto) (signed : SignedTransaction) (utxo : UTXO) (accounts : List Address)
       (e : SigError) (s' : SignedTransaction),
       SignUTXO c signed utxo accounts = .err e s' → s' = signed) ∧
    (∀ (c : Crypto) (reader : UTXOKeysReader) (signed : SignedTransaction) (index : Int)
       (accounts : List Address) (s' : SignedTransaction),
       SignInput c reader signed index accounts = .ok s' →
         (accounts = [] ∧ s' = signed) ∨
           (s'.tx = signed.tx ∧ s'.AggregatedSignature = signed.AggregatedSignature ∧
             ∃ m, s'.SignaturesMap = signed.SignaturesMap ++ [m])) ∧
    (∀ (c : Crypto) (reader : UTXOKeysReader) (signed : SignedTransaction) (index : Int)
       (accounts : List Address) (e : SigError) (s' : SignedTransaction),
       SignInput c reader signed index accounts = .err e s' → s' = signed) ∧
    (∀ (c : Crypto) (signed : SignedTransaction) (key : MKey) (s' : SignedTransaction),
       SignRaw c signed key = .ok s' →
         s'.tx = signed.tx ∧ s'.AggregatedSignature = signed.AggregatedSignature ∧
           ∃ m, s'.SignaturesMap = signed.SignaturesMap ++ [m]) ∧
    (∀ (c : Crypto) (signed : SignedTransaction) (key : MKey) (e : SigError)
       (s' : SignedTransaction),
       SignRaw c signed key = .err e s' → s' = signed) :=
  ⟨fun c signed utxo accounts s' h => signUTXO_ok c signed utxo accounts s' h,
   fun c signed utxo accounts e s' h => signUTXO_err c signed utxo accounts e s' h,
   fun c reader signed index accounts s' h => signInput_ok c reader signed index accounts s' h,
   fun c reader signed index accounts e s' h => signInput_err c reader signed index accounts e s' h,
   fun c signed key s' h => signRaw_ok c signed key s' h,
   fun c signed key e s' h => signRaw_err c signed key e s' h⟩

/-- Witness for C7 (amended): a failing `SignUTXO` leaves the transaction
unchanged. -/
theorem signaturesMap_append_discipline_w :
    SignUTXO cTest depositOneInputTx utxoT [accBad] =
      .err (.invalidKey accBad) depositOneInputTx ∧
    depositOneInputTx = depositOneInputTx :=
  ⟨by decide,
   signaturesMap_append_discipline.2.1 cTest depositOneInputTx utxoT [accBad]
     (.invalidKey accBad) depositOneInputTx (by decide)⟩


theorem lookupLast_lt (l : List MKey) (k : MKey) (i : Nat) (h : lookupLast l k = some i) :
    i < l.length := by
  induction l generalizing i with
  | nil => simp [lookupLast] at h
  | cons x rest ih =>
    unfold lookupLast at h
    split at h
    · rename_i j hj
      injection h with h
      subst h
      exact Nat.succ_lt_succ (ih j hj)
    · split_ifs at h
      injection h with h
      subst h
      exact Nat.succ_pos _

theorem accStep_inv (c : Crypto) (utxo : UTXO) (nonce : Nat) (st st' : ScanSt) (acc : Address)
    (h : accStep c utxo nonce st acc = .ok st') (hinv : scanInvDuring utxo.Keys st) :
    scanInvDuring utxo.Keys st' ∧ st'.pubKeys = st.pubKeys := by
  obtain ⟨hchain, hbound, hlen⟩ := hinv
  unfold accStep at h
  split at h
  · rename_i x last hlast
    dsimp only at h
    split at h
    · simp at h
    · rename_i i hi
      have hilt : i < utxo.Keys.length := lookupLast_lt _ _ _ hi
      split_ifs at h with hle
      injection h with h
      subst h
      refine ⟨⟨?_, ?_, ?_⟩, rfl⟩
      · refine List.Chain'.append hchain (List.chain'_singleton _) ?_
        intro x hx y hy
        simp at hy
        subst hy
        rw [hlast] at hx
        simp at hx
        subst hx
        omega
      · intro m hm
        simp at hm
        rcases hm with hm | hm
        · exact hbound m hm
        · subst hm
          simp
          omega
      · simp [hlen]
  · rename_i x hlast
    dsimp only at h
    split at h
    · simp at h
    · rename_i i hi
      have hilt : i < utxo.Keys.length := lookupLast_lt _ _ _ hi
      injection h with h
      subst h
      refine ⟨⟨?_, ?_, ?_⟩, rfl⟩
      · have hnil : st.signers = [] := List.getLast?_eq_none_iff.mp hlast
        simp [hnil, List.chain'_singleton]
      · intro m hm
        simp at hm
        rcases hm with hm | hm
        · exact hbound m hm
        · subst hm
          simp
          omega
      · simp [hlen]

theorem accLoop_inv (c : Crypto) (utxo : UTXO) (nonce : Nat) (accs : List Address)
    (st st' : ScanSt) (h : accLoop c utxo nonce accs st = .ok st')
    (hinv : scanInvDuring utxo.Keys st) :
    scanInvDuring utxo.Keys st' ∧ st'.pubKeys = st.pubKeys := by
  induction accs generalizing st with
  | nil =>
    unfold accLoop at h
    injection h with h
    subst h
    exact ⟨hinv, rfl⟩
  | cons a rest ih =>
    unfold accLoop at h
    split at h
    · simp at h
    · rename_i st1 hstep
      obtain ⟨hinv1, hpk1⟩ := accStep_inv c utxo nonce st st1 a hstep hinv
      obtain ⟨hinv2, hpk2⟩ := ih st1 h hinv1
      exact ⟨hinv2, hpk2.trans hpk1⟩

theorem aggScan_inv (c : Crypto) (reader : UTXOKeysReader) (accss : List (List Address))
    (inputs : List Input) (idx : Nat) (st st' : ScanSt)
    (h : aggScan c reader accss idx inputs st = .ok st') (hinv : scanInvAfter st) :
    scanInvAfter st' := by
  induction inputs generalizing idx st with
  | nil =>
    unfold aggScan at h
    injection h with h
    subst h
    exact hinv
  | cons input rest ih =>
    unfold aggScan at h
    split at h
    · simp at h
    · simp at h
    · rename_i utxo hread
      split at h
      · simp at h
      · rename_i accs haccs
        split at h
        · simp at h
        · rename_i st1 hloop
          have hD : scanInvDuring utxo.Keys st := by
            obtain ⟨h1, h2, h3⟩ := hinv
            exact ⟨h1, fun m hm => Nat.lt_of_lt_of_le (h2 m hm) (Nat.le_add_right _ _), h3⟩
          obtain ⟨⟨h1, h2, h3⟩, hpk⟩ := accLoop_inv c utxo input.Index accs st st1 hloop hD
          refine ih (idx + 1) _ h ⟨h1, ?_, h3⟩
          intro m hm
          simp only [List.length_append]
          exact h2 m hm

theorem aggregateSign_err (c : Crypto) (reader : UTXOKeysReader) (accss : List (List Address))
    (seed : Bytes) (signed : SignedTransaction) (e : SigError) (s' : SignedTransaction)
    (h : AggregateSign c reader accss seed signed = .err e s') : s' = signed := by
  unfold AggregateSign at h
  split at h
  · simp at h
  · injection h with h1 h2
    exact h2.symm
  · split at h
    · simp at h
    · injection h with h1 h2
      exact h2.symm
    · dsimp only at h
      split at h
      · simp at h
      · injection h with h1 h2
        exact h2.symm
      · simp at h

theorem aggregateSign_ok_props (c : Crypto) (reader : UTXOKeysReader)
    (accss : List (List Address)) (seed : Bytes) (signed : SignedTransaction)
    (s' : SignedTransaction) (h : AggregateSign c reader accss seed signed = .ok s') :
    s'.tx = signed.tx ∧ s'.SignaturesMap = signed.SignaturesMap ∧
      ∃ a, s'.AggregatedSignature = some a ∧ List.Chain' (· < ·) a.Signers := by
  unfold AggregateSign at h
  split at h
  · simp at h
  · simp at h
  · rename_i st hscan
    split at h
    · simp at h
    · simp at h
    · rename_i trip randoms pp aa
      dsimp only at h
      split at h
      · simp at h
      · simp at h
      · rename_i s hph4
        injection h with h
        subst h
        have hinv : scanInvAfter st :=
          aggScan_inv c reader accss signed.tx.Inputs 0 ⟨[], [], []⟩ st hscan
            ⟨List.chain'_nil, by simp, rfl⟩
        exact ⟨rfl, rfl, _, rfl, hinv.1⟩

theorem accStep_order_reject (c : Crypto) (utxo : UTXO) (nonce : Nat) (st : ScanSt)
    (acc : Address) (l : List Nat) (last i : Nat)
    (hsig : st.signers = l ++ [last])
    (hlook : lookupLast utxo.Keys
        (c.pub (c.deriveGhostPrivateKey utxo.Mask acc.PrivateViewKey acc.PrivateSpendKey nonce)) =
      some i)
    (hle : st.pubKeys.length + i ≤ last) :
    accStep c utxo nonce st acc = .error (.invalidSignersOrder last (st.pubKeys.length + i)) := by
  unfold accStep
  dsimp only
  rw [hlook, hsig, List.getLast?_concat]
  dsimp only
  rw [if_pos hle]

theorem aggScan_no_panic (c : Crypto) (reader : UTXOKeysReader) (accss : List (List Address)) :
    ∀ (inputs : List Input) (idx : Nat) (st : ScanSt) (k : PanicKind),
      idx + inputs.length ≤ accss.length →
      aggScan c reader accss idx inputs st ≠ .panic k := by
  intro inputs
  induction inputs with
  | nil => intro idx st k hb; simp [aggScan]
  | cons input rest ih =>
    intro idx st k hb
    unfold aggScan
    split
    · simp
    · simp
    · rename_i utxo hread
      split
      · rename_i haccs
        have : idx < accss.length := by simp at hb; omega
        rw [List.getElem?_eq_getElem this] at haccs
        exact Option.noConfusion haccs
      · rename_i accs haccs
        split
        · simp
        · rename_i st1 hloop
          apply ih
          simp at hb
          omega

theorem aggPhase2_no_panic (c : Crypto) (seed : Bytes) (pubKeys : List MKey) :
    ∀ (ms : List Nat) (randoms : List MKey) (pp aa : Point) (k : PanicKind),
      (∀ m ∈ ms, m < pubKeys.length) →
      aggPhase2 c seed pubKeys ms randoms pp aa ≠ .panic k := by
  intro ms
  induction ms with
  | nil => intro randoms pp aa k hb; simp [aggPhase2]
  | cons m rest ih =>
    intro randoms pp aa k hb
    unfold aggPhase2
    dsimp only
    split
    · simp
    · split
      · rename_i hpk
        have : m < pubKeys.length := hb m (by simp)
        rw [List.getElem?_eq_getElem this] at hpk
        exact Option.noConfusion hpk
      · rename_i pk hpk
        split
        · simp
        · apply ih
          intro x hx
          exact hb x (by simp [hx])

theorem aggPhase2_randoms_len (c : Crypto) (seed : Bytes) (pubKeys : List MKey) :
    ∀ (ms : List Nat) (randoms : List MKey) (pp aa : Point) (randoms' : List MKey)
      (pp' aa' : Point),
      aggPhase2 c seed pubKeys ms randoms pp aa = .ok (randoms', pp', aa') →
      randoms'.length = randoms.length + ms.length := by
  intro ms
  induction ms with
  | nil =>
    intro randoms pp aa randoms' pp' aa' h
    unfold aggPhase2 at h
    injection h with h
    obtain ⟨h1, h2, h3⟩ := Prod.mk.injEq .. ▸ h
    simp_all
  | cons m rest ih =>
    intro randoms pp aa randoms' pp' aa' h
    unfold aggPhase2 at h
    dsimp only at h
    split at h
    · simp at h
    · split at h
      · simp at h
      · split at h
        · simp at h
        · have := ih _ _ _ _ _ _ h
          simp at this
          simp [this]
          omega

theorem aggPhase4_no_oob (c : Crypto) (x : Scalar) (randoms : List MKey) :
    ∀ (privKeys : List MKey) (i : Nat) (s : Scalar),
      i + privKeys.length ≤ randoms.length →
      aggPhase4 c x randoms privKeys i s ≠ .panic .outOfRange := by
  intro privKeys
  induction privKeys with
  | nil => intro i s hb; simp [aggPhase4]
  | cons k rest ih =>
    intro i s hb
    unfold aggPhase4
    split
    · simp
    · split
      · rename_i hri
        have : i < randoms.length := by simp at hb; omega
        rw [List.getElem?_eq_getElem this] at hri
        exact Option.noConfusion hri
      · rename_i rk hri
        split
        · simp
        · apply ih
          simp at hb
          omega

theorem aggScan_append (c : Crypto) (reader : UTXOKeysReader) (accss : List (List Address)) :
    ∀ (l₁ l₂ : List Input) (idx : Nat) (st : ScanSt),
      aggScan c reader accss idx (l₁ ++ l₂) st =
        match aggScan c reader accss idx l₁ st with
        | .ok st' => aggScan c reader accss (idx + l₁.length) l₂ st'
        | .err e => .err e
        | .panic k => .panic k := by
  intro l₁
  induction l₁ with
  | nil =>
    intro l₂ idx st
    simp [aggScan]
  | cons a t ih =>
    intro l₂ idx st
    rw [List.cons_append]
    unfold aggScan
    cases hread : reader a.Hash a.Index with
    | error e => rfl
    | ok o =>
      cases o with
      | none => rfl
      | some utxo =>
        dsimp only
        cases haccs : accss[idx]? with
        | none => rfl
        | some accs =>
          dsimp only
          cases hloop : accLoop c utxo a.Index accs st with
          | error e => rfl
          | ok st1 =>
            dsimp only
            rw [ih]
            have hh : idx + 1 + t.length = idx + (a :: t).length := by
              simp
              omega
            simp only [hh]
            cases aggScan c reader accss (idx + 1) t
                ⟨st1.signers, st1.privKeys, st1.pubKeys ++ utxo.Keys⟩ with
            | ok st2 => dsimp only; cases l₂ <;> rfl
            | err e => rfl
            | panic k => rfl

/-- C3: `AggregateSign` is deterministic: two calls with the same crypto
primitives, reader, accounts-per-input vector, seed and transaction that both
succeed produce the same post state, in particular identical
`AggregatedSignature` (signers vector and both signature halves). -/
theorem aggregateSign_deterministic :
    ∀ (c : Crypto) (reader : UTXOKeysReader) (accss : List (List Address)) (seed : Bytes)
      (signed s₁ s₂ : SignedTransaction),
      AggregateSign c reader accss seed signed = .ok s₁ →
      AggregateSign c reader accss seed signed = .ok s₂ →
      s₁ = s₂ ∧ s₁.AggregatedSignature = s₂.AggregatedSignature := by
  intro c reader accss seed signed s₁ s₂ h₁ h₂
  rw [h₁] at h₂
  injection h₂ with h
  exact ⟨h, by rw [h]⟩

/-- C2: whenever `AggregateSign` succeeds, the stored `Signers` vector is
strictly ascending; when during the scan a computed global index
`m = len(pubKeys) + i` is at most the last appended signer index, the account
step fails with the invalid-signers-order error; and every error return of
`AggregateSign` leaves the transaction, in particular `AggregatedSignature`,
unchanged. -/
theorem aggregateSign_signers_ascending :
    (∀ (c : Crypto) (reader : UTXOKeysReader) (accss : List (List Address)) (seed : Bytes)
       (signed s' : SignedTransaction),
       AggregateSign c reader accss seed signed = .ok s' →
       ∃ a, s'.AggregatedSignature = some a ∧ List.Chain' (· < ·) a.Signers) ∧
    (∀ (c : Crypto) (utxo : UTXO) (nonce : Nat) (st : ScanSt) (acc : Address) (l : List Nat)
       (last i : Nat),
       st.signers = l ++ [last] →
       lookupLast utxo.Keys
           (c.pub (c.deriveGhostPrivateKey utxo.Mask acc.PrivateViewKey acc.PrivateSpendKey
             nonce)) =
         some i →
       st.pubKeys.length + i ≤ last →
       accStep c utxo nonce st acc = .error (.invalidSignersOrder last (st.pubKeys.length + i))) ∧
    (∀ (c : Crypto) (reader : UTXOKeysReader) (accss : List (List Address)) (seed : Bytes)
       (signed : SignedTransaction) (e : SigError) (s' : SignedTransaction),
       AggregateSign c reader accss seed signed = .err e s' →
       s' = signed ∧ s'.AggregatedSignature = signed.AggregatedSignature) := by
  refine ⟨?_, ?_, ?_⟩
  · intro c reader accss seed signed s' h
    exact (aggregateSign_ok_props c reader accss seed signed s' h).2.2
  · exact accStep_order_reject
  · intro c reader accss seed signed e s' h
    have := aggregateSign_err c reader accss seed signed e s' h
    exact ⟨this, by rw [this]⟩

/-- C10: `AggregateSign` indexes the accounts-per-input vector by input
position without a length check. With `len(accounts) >= len(Inputs)` no
out-of-range access happens; with a shorter vector, once the scan reaches the
first uncovered input (the covered prefix scanned cleanly and that input's
UTXO read succeeds) the result is the out-of-range panic, not an error
return. -/
theorem aggregateSign_accounts_length :
    (∀ (c : Crypto) (reader : UTXOKeysReader) (accss : List (List Address)) (seed : Bytes)
       (signed : SignedTransaction),
       signed.tx.Inputs.length ≤ accss.length →
       AggregateSign c reader accss seed signed ≠ .panic .outOfRange) ∧
    (∀ (c : Crypto) (reader : UTXOKeysReader) (accss : List (List Address)) (seed : Bytes)
       (signed : SignedTransaction) (st : ScanSt) (input : Input) (utxo : UTXO),
       accss.length < signed.tx.Inputs.length →
       aggScan c reader accss 0 (signed.tx.Inputs.take accss.length) ⟨[], [], []⟩ = .ok st →
       signed.tx.Inputs[accss.length]? = some input →
       reader input.Hash input.Index = .ok (some utxo) →
       AggregateSign c reader accss seed signed = .panic .outOfRange) := by
  constructor
  · intro c reader accss seed signed hlen
    unfold AggregateSign
    cases hscan : aggScan c reader accss 0 signed.tx.Inputs ⟨[], [], []⟩ with
    | panic k =>
      exact absurd hscan
        (aggScan_no_panic c reader accss signed.tx.Inputs 0 ⟨[], [], []⟩ k (by omega))
    | err e => dsimp only; simp
    | ok st =>
      dsimp only
      have hinv : scanInvAfter st :=
        aggScan_inv c reader accss signed.tx.Inputs 0 ⟨[], [], []⟩ st hscan
          ⟨List.chain'_nil, by simp, rfl⟩
      cases hp2 : aggPhase2 c seed st.pubKeys st.signers [] c.identityPoint c.identityPoint with
      | panic k =>
        exact absurd hp2
          (aggPhase2_no_panic c seed st.pubKeys st.signers [] c.identityPoint c.identityPoint k
            hinv.2.1)
      | err e => dsimp only; simp
      | ok trip =>
        obtain ⟨randoms, pp, aa⟩ := trip
        dsimp only
        cases hp4 : aggPhase4 c
            (c.hramScalar (c.pointBytes pp) (c.pointBytes aa) (c.payloadHash signed.tx))
            randoms st.privKeys 0 c.scalarZero with
        | panic k =>
          cases k with
          | badScalar => dsimp only; simp
          | outOfRange =>
            have hrlen : randoms.length = ([] : List MKey).length + st.signers.length :=
              aggPhase2_randoms_len c seed st.pubKeys st.signers [] c.identityPoint
                c.identityPoint randoms pp aa hp2
            simp only [List.length_nil] at hrlen
            have hpl : st.privKeys.length = st.signers.length := hinv.2.2
            exact absurd hp4
              (aggPhase4_no_oob c
                (c.hramScalar (c.pointBytes pp) (c.pointBytes aa) (c.payloadHash signed.tx))
                randoms st.privKeys 0 c.scalarZero (by omega))
        | err e => dsimp only; simp
        | ok s => dsimp only; simp
  · intro c reader accss seed signed st input utxo hlt hscan hget hread
    unfold AggregateSign
    have hsplit : signed.tx.Inputs =
        signed.tx.Inputs.take accss.length ++ signed.tx.Inputs.drop accss.length :=
      (List.take_append_drop _ _).symm
    rw [hsplit, aggScan_append, hscan]
    have hdrop : signed.tx.Inputs.drop accss.length =
        input :: signed.tx.Inputs.drop (accss.length + 1) := by
      rw [List.drop_eq_getElem_cons hlt]
      congr 1
      have := List.getElem?_eq_getElem hlt
      rw [hget] at this
      exact (Option.some.injEq .. ▸ this.symm)
    rw [hdrop]
    unfold aggScan
    rw [hread]
    have htk : (signed.tx.Inputs.take accss.length).length = accss.length := by
      rw [List.length_take]
      omega
    rw [htk]
    simp only [Nat.zero_add]
    rw [List.getElem?_eq_none (Nat.le_refl _)]


theorem applyOp_nonAgg_preserves (c : Crypto) (s s' : SignedTransaction) (op : SignOp)
    (hop : isAggregateOp op = false) :
    (applyOp c s op = .ok s' → s'.AggregatedSignature = s.AggregatedSignature) ∧
    (∀ e, applyOp c s op = .err e s' → s'.AggregatedSignature = s.AggregatedSignature) := by
  cases op with
  | utxo u accounts =>
    constructor
    · intro h
      rcases signUTXO_ok c s u accounts s' h with ⟨h1, h2⟩ | ⟨h1, h2, h3⟩
      · rw [h2]
      · exact h2
    · intro e h
      rw [signUTXO_err c s u accounts e s' h]
  | input reader index accounts =>
    constructor
    · intro h
      rcases signInput_ok c reader s index accounts s' h with ⟨h1, h2⟩ | ⟨h1, h2, h3⟩
      · rw [h2]
      · exact h2
    · intro e h
      rw [signInput_err c reader s index accounts e s' h]
  | raw key =>
    constructor
    · intro h
      exact (signRaw_ok c s key s' h).2.1
    · intro e h
      rw [signRaw_err c s key e s' h]
  | aggregate reader accss seed => simp [isAggregateOp] at hop

theorem applyOp_agg_preserves (c : Crypto) (s s' : SignedTransaction) (op : SignOp)
    (hop : isAggregateOp op = true) :
    (applyOp c s op = .ok s' → s'.SignaturesMap = s.SignaturesMap) ∧
    (∀ e, applyOp c s op = .err e s' → s'.SignaturesMap = s.SignaturesMap) := by
  cases op with
  | utxo u accounts => simp [isAggregateOp] at hop
  | input reader index accounts => simp [isAggregateOp] at hop
  | raw key => simp [isAggregateOp] at hop
  | aggregate reader accss seed =>
    constructor
    · intro h
      exact (aggregateSign_ok_props c reader accss seed s s' h).2.1
    · intro e h
      rw [aggregateSign_err c reader accss seed s e s' h]

theorem runOps_nonAgg_preserves (c : Crypto) :
    ∀ (ops : List SignOp) (s s' : SignedTransaction),
      (∀ op ∈ ops, isAggregateOp op = false) →
      runOps c ops s = some s' →
      s'.AggregatedSignature = s.AggregatedSignature := by
  intro ops
  induction ops with
  | nil =>
    intro s s' hall h
    unfold runOps at h
    injection h with h
    rw [h]
  | cons op rest ih =>
    intro s s' hall h
    unfold runOps at h
    split at h
    · exact Option.noConfusion h
    · rename_i e s1 hap
      have h1 := (applyOp_nonAgg_preserves c s s1 op (hall op (by simp))).2 e hap
      have h2 := ih s1 s' (fun x hx => hall x (by simp [hx])) h
      rw [h2, h1]
    · rename_i s1 hap
      have h1 := (applyOp_nonAgg_preserves c s s1 op (hall op (by simp))).1 hap
      have h2 := ih s1 s' (fun x hx => hall x (by simp [hx])) h
      rw [h2, h1]

theorem runOps_agg_preserves (c : Crypto) :
    ∀ (ops : List SignOp) (s s' : SignedTransaction),
      (∀ op ∈ ops, isAggregateOp op = true) →
      runOps c ops s = some s' →
      s'.SignaturesMap = s.SignaturesMap := by
  intro ops
  induction ops with
  | nil =>
    intro s s' hall h
    unfold runOps at h
    injection h with h
    rw [h]
  | cons op rest ih =>
    intro s s' hall h
    unfold runOps at h
    split at h
    · exact Option.noConfusion h
    · rename_i e s1 hap
      have h1 := (applyOp_agg_preserves c s s1 op (hall op (by simp))).2 e hap
      have h2 := ih s1 s' (fun x hx => hall x (by simp [hx])) h
      rw [h2, h1]
    · rename_i s1 hap
      have h1 := (applyOp_agg_preserves c s s1 op (hall op (by simp))).1 hap
      have h2 := ih s1 s' (fun x hx => hall x (by simp [hx])) h
      rw [h2, h1]

/-- C9 (amended): for a transaction built by `NewTransactionV5` /
`AddInput` / `AddOutputWithType` and then signed by operations drawn from
only one of the two signing families (the map-based `SignUTXO` / `SignInput`
/ `SignRaw`, or `AggregateSign`), `AggregatedSignature` and `SignaturesMap`
are never both populated. Mixing the families violates the invariant, see
the counterexample. -/
theorem signingPaths_exclusive :
    ∀ (c : Crypto) (asset : MHash) (bops : List BuildOp) (sops : List SignOp)
      (s' : SignedTransaction),
      ((∀ op ∈ sops, isAggregateOp op = false) ∨ (∀ op ∈ sops, isAggregateOp op = true)) →
      runOps c sops (buildTx c asset bops) = some s' →
      ¬(s'.AggregatedSignature.isSome ∧ s'.SignaturesMap ≠ []) := by
  intro c asset bops sops s' hdisj hrun
  rintro ⟨h1, h2⟩
  rcases hdisj with hall | hall
  · have hpres := runOps_nonAgg_preserves c sops (buildTx c asset bops) s' hall hrun
    rw [show (buildTx c asset bops).AggregatedSignature = none from rfl] at hpres
    rw [hpres] at h1
    simp at h1
  · have hpres := runOps_agg_preserves c sops (buildTx c asset bops) s' hall hrun
    rw [show (buildTx c asset bops).SignaturesMap = [] from rfl] at hpres
    exact h2 hpres

/-- C9 counterexample: on a transaction built by the constructors, a
successful `SignUTXO` followed by a successful `AggregateSign` leaves both a
non-nil `AggregatedSignature` and a non-empty `SignaturesMap`. -/
theorem signingPaths_mixed_cex :
    runOps cTest [SignOp.utxo utxoT [accT], SignOp.aggregate readerT [[accT]] [1]]
        (buildTx cTest 0 [BuildOp.input 5 0]) = some bothPopulatedTx ∧
    bothPopulatedTx.AggregatedSignature.isSome = true ∧
    bothPopulatedTx.SignaturesMap ≠ [] := by decide

/-- Witness for C9 (amended) on a single map-signing run. -/
theorem signingPaths_exclusive_w :
    ¬(mapSignedTx.AggregatedSignature.isSome ∧ mapSignedTx.SignaturesMap ≠ []) :=
  signingPaths_exclusive cTest 0 [BuildOp.input 5 0] [SignOp.utxo utxoT [accT]] mapSignedTx
    (Or.inl (by intro op hop; simp at hop; rw [hop]; rfl)) (by decide)

/-- Witness for C3 at a concrete successful aggregate signing. -/
theorem aggregateSign_deterministic_w :
    aggOkTx = aggOkTx ∧ aggOkTx.AggregatedSignature = aggOkTx.AggregatedSignature :=
  aggregateSign_deterministic cTest readerT [[accT]] [1] plainOneInputTx aggOkTx aggOkTx
    (by decide) (by decide)

/-- Witness for C2: a concrete non-ascending account step is rejected. -/
theorem aggregateSign_signers_ascending_w :
    accStep cTest utxoT 0 ⟨[5], [9], []⟩ accT = .error (.invalidSignersOrder 5 0) :=
  aggregateSign_signers_ascending.2.1 cTest utxoT 0 ⟨[5], [9], []⟩ accT [] 5 0 rfl
    (by decide) (by decide)

/-- Witness for C10: an empty accounts vector on a one-input transaction
panics out of range once the input's UTXO read succeeds. -/
theorem aggregateSign_accounts_length_w :
    AggregateSign cTest readerT [] [1] plainOneInputTx = .panic .outOfRange :=
  aggregateSign_accounts_length.2 cTest readerT [] [1] plainOneInputTx ⟨[], [], []⟩
    { Hash := 5, Index := 0, Genesis := none, Deposit := none, Mint := none } utxoT
    (by decide) (by decide) (by decide) rfl

end Mixin
